import Mathlib

/-!
A shallow embedding of the polybar window-list script
(src/.config/polybar/scripts/window-list.py) together with proofs of the
behavioural properties claimed for it.  Python strings are modelled as
`List Char` (titles are ASCII once the wmctrl driver has stripped non-ASCII
characters), machine integers as `Nat`/`Int`, and fallible operations as
`Option`/`Except`.
-/

/-- Python error values that the script can raise or swallow. -/
inductive PyError
  | fileNotFound
  | valueError
  | other
deriving DecidableEq

/-- Whitespace characters recognised by Python's `str.strip` family. -/
def pyIsSpace (c : Char) : Bool :=
  c = ' ' || c = '\t' || c = '\n' || c = '\r' || c = '\x0b' || c = '\x0c'

/-- Python `str.rstrip()`. -/
def pyRstrip (l : List Char) : List Char :=
  (l.reverse.dropWhile pyIsSpace).reverse

/-- Python `str.strip()`. -/
def pyStrip (l : List Char) : List Char :=
  ((l.dropWhile pyIsSpace).reverse.dropWhile pyIsSpace).reverse

/-- Python `s.split("\n")`: the empty string yields one empty piece. -/
def splitOnNl : List Char → List (List Char)
  | [] => [[]]
  | c :: cs =>
    if c = '\n' then [] :: splitOnNl cs
    else
      match splitOnNl cs with
      | [] => [[c]]
      | t :: ts => (c :: t) :: ts

/-- Value of one hexadecimal digit, `none` for a non-digit. -/
def hexDigitVal (c : Char) : Option Nat :=
  if '0' ≤ c ∧ c ≤ '9' then some (c.toNat - '0'.toNat)
  else if 'a' ≤ c ∧ c ≤ 'f' then some (c.toNat - 'a'.toNat + 10)
  else if 'A' ≤ c ∧ c ≤ 'F' then some (c.toNat - 'A'.toNat + 10)
  else none

/-- Value of a nonempty all-hexadecimal digit string, `none` otherwise. -/
def hexDigitsVal : List Char → Option Nat
  | [] => none
  | l =>
    l.foldl
      (fun acc c => acc.bind (fun a => (hexDigitVal c).map (fun d => 16 * a + d)))
      (some 0)

/-- Model of Python `int(s, 16)`: optional surrounding whitespace, an optional
sign, an optional `0x`/`0X` prefix, then one or more hexadecimal digits.
(CPython additionally accepts single underscores between digits; the
window-manager output this script parses never contains them.)  `none` stands
for the `ValueError` that `int` raises on malformed input. -/
def pyIntHex (s : List Char) : Option Int :=
  let t0 := pyStrip s
  let sign : Int := match t0 with | '-' :: _ => -1 | _ => 1
  let t1 := match t0 with | '-' :: r => r | '+' :: r => r | _ => t0
  let t2 := match t1 with | '0' :: 'x' :: r => r | '0' :: 'X' :: r => r | _ => t1
  (hexDigitsVal t2).map (fun n => sign * n)

/-- `NodeDriver._safe_hex_to_dec`: `int(node_id, 16)` with a caught
`ValueError` leaving the default `id = 0`. -/
def _safe_hex_to_dec (node_id : List Char) : Int :=
  (pyIntHex node_id).getD 0

/-- `NodeDriver._id_map`: map the raw query lines through
`_safe_hex_to_dec` and drop every zero. -/
def _id_map (output : List (List Char)) : List Int :=
  ((output.map _safe_hex_to_dec).filter (fun n => n != 0))

/-- The pure post-processing in `NodeDriver._select`:
`pipe.stdout.rstrip().split("\n")`. -/
def _select_lines (stdout : List Char) : List (List Char) :=
  splitOnNl (pyRstrip stdout)

/-- Window properties as stored by `WindowInfoDriver.get_info_map`
(the `id` column is popped off into the map key).  `cls` is the
`"class"` entry. -/
structure WProps where
  desktop : Int
  pid : Int
  geometry : Int × Int × Int × Int
  cls : List Char
  title : List Char
deriving DecidableEq

/-- One window record as produced by `Node(...).attrs` in
`WindowListRepo._map_to_domain`. -/
structure WRec where
  id : Int
  props : WProps
deriving DecidableEq

/-- `WindowListRepo._filter` (dict `pop` of every id in `filter`), as the
resulting lookup function. -/
def metaMinus (wminfo_hash : Int → Option WProps) (fltr : List Int) :
    Int → Option WProps :=
  fun id => if id ∈ fltr then none else wminfo_hash id

/-- `WindowListRepo._map_to_domain`: one record per queried id that still has
metadata, in query order. -/
def _map_to_domain (node_id : List Int) (wminfo_hash : Int → Option WProps) :
    List WRec :=
  node_id.filterMap (fun id => (wminfo_hash id).map (fun p => ⟨id, p⟩))

/-- `WindowListRepo.get_focused_window`: the `result.pop()` of the mapped
list, `none` for the empty dict `{}`. -/
def get_focused_window (node_focused : List Int)
    (wminfo_hash : Int → Option WProps) : Option WRec :=
  (_map_to_domain node_focused wminfo_hash).getLast?

/-- `WindowListRepo.get_same_class_windows`. -/
def get_same_class_windows (node_cls_id : List Int)
    (wminfo_hash : Int → Option WProps) (fltr : List Int) : List WRec :=
  _map_to_domain node_cls_id (metaMinus wminfo_hash fltr)

/-- Boolean lexicographic order on code points: Python's `<=` on the
already-lower-cased class strings. -/
def lexLe : List Char → List Char → Bool
  | [], _ => true
  | _ :: _, [] => false
  | a :: as, b :: bs =>
    if a.toNat < b.toNat then true
    else if b.toNat < a.toNat then false
    else lexLe as bs

/-- The key comparison `WindowListRepo._group` sorts by
(`sorted(key=lambda i: i.get("class", ""))`). -/
def clsLe (a b : WRec) : Bool :=
  lexLe a.props.cls b.props.cls

/-- `WindowListRepo._group`: Python's `sorted` is a stable sort, so it is
modelled by the (stable) `List.mergeSort` under the same key order. -/
def _group (winlist : List WRec) : List WRec :=
  winlist.mergeSort clsLe

/-- `WindowListRepo.get_window_list`. -/
def get_window_list (node_win_id : List Int)
    (wminfo_hash : Int → Option WProps) (fltr : List Int) : List WRec :=
  _group (_map_to_domain node_win_id (metaMinus wminfo_hash fltr))

/-- The three display tiers built by one `WindowListInteractor.get_output`
cycle. -/
structure Tiers where
  focusedTier : List WRec
  sameTier : List WRec
  restTier : List WRec

/-- The tier computation of `WindowListInteractor.get_output`, with the three
id queries and the metadata map as inputs.  `node_focused.get("id", None)` is
falsy both for the empty dict and for id `0`; in that case the same-class ids
are *not* appended to the filter before `get_window_list` runs. -/
def get_output_tiers (focusedIds sameClassIds visibleIds : List Int)
    (meta : Int → Option WProps) : Tiers :=
  match get_focused_window focusedIds meta with
  | some r =>
    if r.id = 0 then
      ⟨[], get_same_class_windows sameClassIds meta [],
        get_window_list visibleIds meta []⟩
    else
      let node_cls_list := get_same_class_windows sameClassIds meta [r.id]
      let fltr2 := r.id :: node_cls_list.map (fun n => n.id)
      ⟨[r], node_cls_list, get_window_list visibleIds meta fltr2⟩
  | none =>
    ⟨[], get_same_class_windows sameClassIds meta [],
      get_window_list visibleIds meta []⟩

/-- The id set of a tier. -/
def tierIds (l : List WRec) : List Int :=
  l.map (fun r => r.id)

/-- The invariant claimed for one rendering cycle: the three tiers are
pairwise disjoint in id and their ids together are exactly the visible ids
that have metadata. -/
def tiersDisjointUnion (focusedIds sameClassIds visibleIds : List Int)
    (meta : Int → Option WProps) : Prop :=
  (∀ x ∈ tierIds (get_output_tiers focusedIds sameClassIds visibleIds meta).focusedTier,
    x ∉ tierIds (get_output_tiers focusedIds sameClassIds visibleIds meta).sameTier) ∧
  (∀ x ∈ tierIds (get_output_tiers focusedIds sameClassIds visibleIds meta).focusedTier,
    x ∉ tierIds (get_output_tiers focusedIds sameClassIds visibleIds meta).restTier) ∧
  (∀ x ∈ tierIds (get_output_tiers focusedIds sameClassIds visibleIds meta).sameTier,
    x ∉ tierIds (get_output_tiers focusedIds sameClassIds visibleIds meta).restTier) ∧
  (∀ x : Int,
    (x ∈ tierIds (get_output_tiers focusedIds sameClassIds visibleIds meta).focusedTier ∨
     x ∈ tierIds (get_output_tiers focusedIds sameClassIds visibleIds meta).sameTier ∨
     x ∈ tierIds (get_output_tiers focusedIds sameClassIds visibleIds meta).restTier)
      ↔ (x ∈ visibleIds ∧ (meta x).isSome = true))

/-! ### `WindowInfoFormatter` -/

def LABEL_SIZE : Nat := 17
def LABEL_SIZE_FOCUSED : Nat := 27
def FG_DIMMED : List Char := "#6b7089".data
def BG_FOCUSED : List Char := "#1e2132".data
def FG_FOCUSED : List Char := "#c6c8d1".data
def FG_FOCUSED_CLS : List Char := "#6b7089".data
def BG_SAME_CLASS : List Char := "#5b7881".data
def FG_SAME_CLASS : List Char := "#d2d4de".data
def OVERFLOW : List Char := "..".data
def DELIM_FOCUSED : List Char := " - ".data
def SURROUND_CHAR : Char := '['
def PADDING : Nat := 1

/-- Python `str.ljust(width, fill)`. -/
def ljust (l : List Char) (width : Nat) (fill : Char) : List Char :=
  l ++ List.replicate (width - l.length) fill

/-- `WindowInfoFormatter._clamp_title`. -/
def _clamp_title (title : List Char) (limit : Nat) : List Char :=
  let t := ljust title limit ' '
  if limit < t.length then t.take (limit - OVERFLOW.length) ++ OVERFLOW
  else t

/-- `WindowInfoFormatter._set_bg_color`. -/
def _set_bg_color (title color : List Char) : List Char :=
  "%\x7bB".data ++ color ++ "\x7d".data ++ title ++ "%\x7bB-\x7d".data

/-- `WindowInfoFormatter._set_fg_color`. -/
def _set_fg_color (title color : List Char) : List Char :=
  "%\x7bF".data ++ color ++ "\x7d".data ++ title ++ "%\x7bF-\x7d".data

/-- The closing counterpart of `SURROUND_CHAR`. -/
def surround_close (c : Char) : Char :=
  if c = '[' then ']'
  else if c = '\x7b' then '\x7d'
  else if c = '(' then ')'
  else c

/-- `WindowInfoFormatter._set_surround`. -/
def _set_surround (title : List Char) : List Char :=
  SURROUND_CHAR :: (title ++ [surround_close SURROUND_CHAR])

/-- `WindowInfoFormatter._set_padding`. -/
def _set_padding (title : List Char) : List Char :=
  List.replicate PADDING ' ' ++ title ++ List.replicate PADDING ' '

/-- Python `s.split(delim, 1)` for a nonempty delimiter, as the pair of parts
around the first occurrence; `none` when the delimiter does not occur (so
two-target tuple unpacking of the result raises `ValueError`). -/
def split_once (delim : List Char) : List Char → Option (List Char × List Char)
  | [] => none
  | c :: cs =>
    if delim.isPrefixOf (c :: cs) then some ([], (c :: cs).drop delim.length)
    else
      match split_once delim cs with
      | some (a, b) => some (c :: a, b)
      | none => none

/-- Python `\w` on the ASCII titles this script handles. -/
def isWordChar (c : Char) : Bool :=
  c.isAlpha || c.isDigit || c = '_'

/-- The single anchored substitution of `re.sub(r"^[^\w]*?- +", "", name)`:
scan left-to-right through non-word characters (the non-greedy `[^\w]*?`)
for a `'-'` followed by at least one space, and drop everything up to and
including the maximal space run (the greedy `" +"`); `none` when the pattern
does not match. -/
def re_strip_match : List Char → Option (List Char)
  | [] => none
  | c :: cs =>
    if c = '-' ∧ cs.head? = some ' ' then some (cs.dropWhile (fun d => d = ' '))
    else if isWordChar c then none
    else re_strip_match cs

/-- `re.sub` keeps the string unchanged when the pattern does not match. -/
def re_sub_strip (name : List Char) : List Char :=
  (re_strip_match name).getD name

/-- `WindowInfoFormatter._strip_focused_delim`; `none` models the uncaught
`ValueError` from unpacking when the delimiter is absent from the label. -/
def _strip_focused_delim (label : List Char) : Option (List Char) :=
  (split_once DELIM_FOCUSED label).map
    (fun p => p.1 ++ DELIM_FOCUSED ++ re_sub_strip p.2)

/-- `WindowInfoFormatter.style_focused`; only the second `split` sits inside
a `try`, so only the first one can raise; the `except ValueError` branch
substitutes the class `"UNKNOWN"` and the blank
`"".ljust(LABEL_SIZE_FOCUSED - len(DELIM_FOCUSED) - len(cls))` title. -/
def style_focused (title : List Char) : Except PyError (List Char) :=
  match _strip_focused_delim title with
  | none => Except.error PyError.valueError
  | some label0 =>
    match split_once DELIM_FOCUSED (_clamp_title label0 LABEL_SIZE_FOCUSED) with
    | some cn =>
      Except.ok (_set_bg_color
        (_set_padding
          (_set_fg_color (cn.1 ++ DELIM_FOCUSED) FG_FOCUSED_CLS
            ++ _set_fg_color (_set_surround cn.2) FG_FOCUSED))
        BG_FOCUSED)
    | none =>
      Except.ok (_set_bg_color
        (_set_padding
          (_set_fg_color ("UNKNOWN".data ++ DELIM_FOCUSED) FG_FOCUSED_CLS
            ++ _set_fg_color (_set_surround (ljust []
              (LABEL_SIZE_FOCUSED - DELIM_FOCUSED.length - "UNKNOWN".data.length) ' '))
              FG_FOCUSED))
        BG_FOCUSED)

/-! ### `ThreadedRefresh` -/

/-- The mutable state of one `ThreadedRefresh.run` execution: the local
iteration counter, the `_terminate` event flag and the number of times the
render target has been invoked. -/
structure RefreshState where
  iterCount : Nat
  stopped : Bool
  renders : Nat
deriving DecidableEq

/-- One iteration of the `while not self.stopped` loop in
`ThreadedRefresh.run`: render once, wait one interval, self-stop when
`interval * iter_count > timeout`, increment the counter.  A stopped state is
fixed: the loop has exited. -/
def run_step (interval timeout : Nat) (s : RefreshState) : RefreshState :=
  if s.stopped then s
  else
    { iterCount := s.iterCount + 1,
      stopped := decide (timeout < interval * s.iterCount),
      renders := s.renders + 1 }

/-- The loop state after `n` iterations from state `s`. -/
def run_loop (interval timeout : Nat) (s : RefreshState) : Nat → RefreshState
  | 0 => s
  | n + 1 => run_step interval timeout (run_loop interval timeout s n)

/-- The state at the first loop-condition check when `stop()` was never
called before it. -/
def run_start : RefreshState := ⟨0, false, 0⟩

/-- The state at the first loop-condition check when `stop()` already set the
`_terminate` flag during the start-delay wait. -/
def run_start_stopped : RefreshState := ⟨0, true, 0⟩

/-! ### `Controller` -/

/-- Kind of object present at a file-system path. -/
inductive FileKind
  | fifo
  | regular
  | directory
deriving DecidableEq

/-- The named-pipe path `polybar_hook_notify` writes to. -/
def hook_path (polybar_pid : Nat) : String :=
  "/tmp/polybar_mqueue." ++ toString polybar_pid

/-- `Controller.polybar_hook_notify` over a file-system snapshot mapping each
path to the kind of object there (or `none`): check `os.path.exists`, then
inside a `try` check `S_ISFIFO(os.stat(...).st_mode)` and append one line,
swallowing `FileNotFoundError`.  The result carries the text appended to the
pipe, if any (`print(..., file=f)` adds the newline). -/
def polybar_hook_notify (fs : String → Option FileKind)
    (polybar_pid hook_id : Nat) : Except PyError (Option String) :=
  let hook := hook_path polybar_pid
  if (fs hook).isSome = false then Except.ok none
  else
    let body : Except PyError (Option String) :=
      match fs hook with
      | none => Except.error PyError.fileNotFound
      | some k =>
        if k ≠ FileKind.fifo then Except.ok none
        else Except.ok (some ("hook:module/window-list" ++ toString hook_id ++ "\n"))
    match body with
    | Except.error PyError.fileNotFound => Except.ok none
    | r => r

/-- Python `file.readlines()`: split into lines keeping each `'\n'`
terminator; a final unterminated line is kept, an empty file gives `[]`. -/
def py_readlines : List Char → List (List Char)
  | [] => []
  | c :: cs =>
    if c = '\n' then ['\n'] :: py_readlines cs
    else
      match py_readlines cs with
      | [] => [[c]]
      | t :: ts => (c :: t) :: ts

/-- `Controller.tail` over a file-system snapshot mapping each path to its
content: `open` raises `FileNotFoundError` on a missing file; otherwise
`lines[-1] if len(lines) != 0 else ""` is printed with `end=""`.  The result
carries the printed text. -/
def tail (fs : String → Option (List Char)) (polybar_pid : Nat)
    (cache_path : String) : Except PyError (List Char) :=
  let path := cache_path ++ "." ++ toString polybar_pid
  match fs path with
  | none => Except.error PyError.fileNotFound
  | some content =>
    let lines := py_readlines content
    Except.ok ((lines.getLast?).getD [])

/-- A small concrete metadata map used to instantiate the theorems. -/
def metaABC : Int → Option WProps := fun i =>
  if i = 2 then some ⟨0, 0, (0, 0, 0, 0), "b".data, "two".data⟩
  else if i = 3 then some ⟨0, 0, (0, 0, 0, 0), "b".data, "three".data⟩
  else if i = 4 then some ⟨0, 0, (0, 0, 0, 0), "a".data, "four".data⟩
  else if i = 5 then some ⟨0, 0, (0, 0, 0, 0), "c".data, "five".data⟩
  else none

/-- A concrete file-system snapshot with one regular cache file. -/
def tailFs : String → Option (List Char) := fun p =>
  if p = "window-list.7" then some "a\nbc".data else none

/-! ## Theorems -/

theorem run_step_stopped (interval timeout : Nat) (s : RefreshState)
    (h : s.stopped = true) : run_step interval timeout s = s := by
  simp [run_step, h]

theorem run_loop_stopped_fixed (interval timeout : Nat) (s : RefreshState)
    (h : s.stopped = true) : ∀ n, run_loop interval timeout s n = s := by
  intro n
  induction n with
  | zero => rfl
  | succ n ih =>
    show run_step interval timeout (run_loop interval timeout s n) = s
    rw [ih, run_step_stopped interval timeout s h]

theorem run_loop_add (interval timeout : Nat) (s : RefreshState) (a m : Nat) :
    run_loop interval timeout s (a + m)
      = run_loop interval timeout (run_loop interval timeout s a) m := by
  induction m with
  | zero => rfl
  | succ m ih =>
    rw [Nat.add_succ]
    show run_step interval timeout (run_loop interval timeout s (a + m)) = _
    rw [ih]
    rfl

theorem run_loop_unstopped (interval timeout : Nat) :
    ∀ k, k ≤ timeout / interval + 1 →
      run_loop interval timeout run_start k = ⟨k, false, k⟩ := by
  intro k
  induction k with
  | zero => intro _; rfl
  | succ k ih =>
    intro hk
    show run_step interval timeout (run_loop interval timeout run_start k) = _
    rw [ih (by omega)]
    have hle : ¬ (timeout < interval * k) := by
      have h1 : k ≤ timeout / interval := by omega
      have h2 : interval * k ≤ interval * (timeout / interval) :=
        Nat.mul_le_mul_left interval h1
      have h3 : timeout / interval * interval ≤ timeout :=
        Nat.div_mul_le_self timeout interval
      have h4 : interval * (timeout / interval) ≤ timeout := by
        rw [Nat.mul_comm]; exact h3
      omega
    simp [run_step, hle]

/-- C4: for every interval `i > 0` and timeout `t`, a started `ThreadedRefresh`
whose external `stop()` is never called terminates on its own: the run loop's
hard-timeout check (`interval * iter_count > timeout`) has set the stop flag
after `t / i + 2` iterations, and the number of render invocations never
exceeds `t / i + 2`. -/
theorem refresh_timer_hard_timeout (interval timeout : Nat) (hi : 0 < interval) :
    (run_loop interval timeout run_start (timeout / interval + 2)).stopped = true ∧
    ∀ n, (run_loop interval timeout run_start n).renders
          ≤ timeout / interval + 2 := by
  have hN : run_loop interval timeout run_start (timeout / interval + 2)
      = ⟨timeout / interval + 2, true, timeout / interval + 2⟩ := by
    have h1 : run_loop interval timeout run_start (timeout / interval + 1)
        = ⟨timeout / interval + 1, false, timeout / interval + 1⟩ :=
      run_loop_unstopped interval timeout (timeout / interval + 1) (Nat.le_refl _)
    show run_step interval timeout
        (run_loop interval timeout run_start (timeout / interval + 1)) = _
    rw [h1]
    have hstop : timeout < interval * (timeout / interval + 1) := by
      have h2 := Nat.div_add_mod timeout interval
      have h3 : timeout % interval < interval := Nat.mod_lt timeout hi
      have h4 : interval * (timeout / interval + 1)
          = interval * (timeout / interval) + interval := by ring
      omega
    simp [run_step, hstop]
  constructor
  · rw [hN]
  · intro n
    by_cases hn : n ≤ timeout / interval + 1
    · rw [run_loop_unstopped interval timeout n hn]
      show n ≤ timeout / interval + 2
      omega
    · have hsplit : n = (timeout / interval + 2) + (n - (timeout / interval + 2)) := by
        omega
      rw [hsplit, run_loop_add, hN,
        run_loop_stopped_fixed interval timeout _ (by rfl)]

theorem refresh_timer_hard_timeout_witness :
    0 < 2 ∧ (run_loop 2 5 run_start (5 / 2 + 2)).stopped = true ∧
    (run_loop 2 5 run_start 9).renders ≤ 5 / 2 + 2 :=
  ⟨by decide, (refresh_timer_hard_timeout 2 5 (by decide)).1,
    (refresh_timer_hard_timeout 2 5 (by decide)).2 9⟩

/-- C5: if `stop()` sets the cancellation flag before the run loop's first
condition check (immediately after `start()`, during the start-delay wait),
the render target is invoked at most once over the timer's whole lifetime
(in fact never). -/
theorem refresh_timer_stop_before_start (interval timeout n : Nat) :
    (run_loop interval timeout run_start_stopped n).renders ≤ 1 := by
  rw [run_loop_stopped_fixed interval timeout run_start_stopped (by rfl) n]
  decide

/-- C1: for every title and every width of at least `len(OVERFLOW) + 1`,
`_clamp_title` returns exactly `limit` characters; when the title is longer
than `limit`, the result ends with the overflow marker and its first
`limit - len(OVERFLOW)` characters are the title's prefix of that length. -/
theorem clamp_title_exact_width (title : List Char) (limit : Nat)
    (h : OVERFLOW.length + 1 ≤ limit) :
    (_clamp_title title limit).length = limit ∧
    (limit < title.length →
      (_clamp_title title limit).take (limit - OVERFLOW.length)
          = title.take (limit - OVERFLOW.length) ∧
      OVERFLOW <:+ _clamp_title title limit) := by
  have hov : OVERFLOW.length = 2 := by rfl
  by_cases hlen : limit < title.length
  · have hlj : ljust title limit ' ' = title := by
      unfold ljust
      rw [Nat.sub_eq_zero_of_le (Nat.le_of_lt hlen)]
      simp
    have hcl : _clamp_title title limit
        = title.take (limit - OVERFLOW.length) ++ OVERFLOW := by
      unfold _clamp_title
      rw [hlj, if_pos hlen]
    have htk : (title.take (limit - OVERFLOW.length)).length
        = limit - OVERFLOW.length := by
      rw [List.length_take]
      omega
    refine ⟨?_, fun _ => ⟨?_, ?_⟩⟩
    · rw [hcl, List.length_append, htk, hov]
      omega
    · rw [hcl, List.take_left' htk]
    · exact ⟨title.take (limit - OVERFLOW.length), hcl.symm⟩
  · have hle : title.length ≤ limit := Nat.le_of_not_lt hlen
    have hlj : (ljust title limit ' ').length = limit := by
      unfold ljust
      rw [List.length_append, List.length_replicate]
      omega
    have hcl : _clamp_title title limit = ljust title limit ' ' := by
      unfold _clamp_title
      rw [if_neg (by rw [hlj]; exact Nat.lt_irrefl limit)]
    exact ⟨by rw [hcl, hlj], fun hc => absurd hc hlen⟩

theorem clamp_title_exact_width_witness :
    OVERFLOW.length + 1 ≤ 5 ∧ (_clamp_title "abcdefg".data 5).length = 5 ∧
    OVERFLOW <:+ _clamp_title "abcdefg".data 5 :=
  ⟨by decide, (clamp_title_exact_width "abcdefg".data 5 (by decide)).1,
    ((clamp_title_exact_width "abcdefg".data 5 (by decide)).2 (by decide)).2⟩

/-- C7: the id-mapping pipeline is total and equals "parse every line, drop
the failures (which `_safe_hex_to_dec` turns into `0`) and every zero", so
only nonzero ids of well-formed tokens survive; and the empty query output
(`"".rstrip().split("\n") = [""]`) yields the empty id list. -/
theorem id_map_never_errors (output : List (List Char)) :
    _id_map output = (output.filterMap pyIntHex).filter (fun n => n != 0) ∧
    (∀ t : List Char, pyIntHex t = none → _safe_hex_to_dec t = 0) ∧
    _id_map (_select_lines []) = [] := by
  refine ⟨?_, ?_, by rfl⟩
  · induction output with
    | nil => rfl
    | cons t ts ih =>
      unfold _id_map at ih ⊢
      rw [List.map_cons, List.filterMap_cons]
      cases hp : pyIntHex t with
      | none =>
        have h0 : _safe_hex_to_dec t = 0 := by
          unfold _safe_hex_to_dec
          rw [hp]
          rfl
        rw [h0, List.filter_cons]
        simp only [bne_self_eq_false, Bool.false_eq_true, if_false]
        exact ih
      | some v =>
        have hv : _safe_hex_to_dec t = v := by
          unfold _safe_hex_to_dec
          rw [hp]
          rfl
        rw [hv, List.filter_cons, List.filter_cons, ih]
  · intro t hp
    unfold _safe_hex_to_dec
    rw [hp]
    rfl

theorem id_map_never_errors_witness :
    pyIntHex "zz".data = none ∧ _safe_hex_to_dec "zz".data = 0 :=
  ⟨by decide, (id_map_never_errors []).2.1 "zz".data (by decide)⟩

/-- C3: `get_same_class_windows` called with a filter list containing the
focused id never yields a record whose id equals that focused id — the
filtered ids are popped from the metadata map before records are built. -/
theorem same_class_excludes_focused (node_cls_id fltr : List Int)
    (meta : Int → Option WProps) (f : Int) (hf : f ∈ fltr) :
    ∀ r ∈ get_same_class_windows node_cls_id meta fltr, r.id ≠ f := by
  intro r hr
  unfold get_same_class_windows _map_to_domain at hr
  rw [List.mem_filterMap] at hr
  obtain ⟨a, -, ha⟩ := hr
  unfold metaMinus at ha
  by_cases hmem : a ∈ fltr
  · rw [if_pos hmem] at ha
    exact absurd ha (by simp)
  · rw [if_neg hmem] at ha
    cases hm : meta a with
    | none =>
      rw [hm] at ha
      exact absurd ha (by simp)
    | some p =>
      rw [hm] at ha
      have : r.id = a := by
        cases ha
        rfl
      rw [this]
      intro he
      exact hmem (he ▸ hf)

theorem same_class_excludes_focused_witness :
    (7 : Int) ∈ [(7 : Int)] ∧
    ∀ r ∈ get_same_class_windows [7, 3] metaABC [7], r.id ≠ 7 :=
  ⟨by decide, same_class_excludes_focused [7, 3] [7] metaABC 7 (by decide)⟩

/-- C6: `polybar_hook_notify` never raises: it returns successfully for every
file-system state, appending its hook line exactly when the wake-up path
exists and is a FIFO, and silently doing nothing when the path is absent or
is some other kind of object (for example a regular file). -/
theorem hook_notify_silent_noop (fs : String → Option FileKind)
    (polybar_pid hook_id : Nat) :
    polybar_hook_notify fs polybar_pid hook_id =
      Except.ok (match fs (hook_path polybar_pid) with
        | some FileKind.fifo =>
            some ("hook:module/window-list" ++ toString hook_id ++ "\n")
        | _ => none) := by
  unfold polybar_hook_notify
  cases h : fs (hook_path polybar_pid) with
  | none => simp [h]
  | some k => cases k <;> simp [h]

theorem py_readlines_flatten (l : List Char) : (py_readlines l).flatten = l := by
  induction l with
  | nil => rfl
  | cons c cs ih =>
    unfold py_readlines
    by_cases hc : c = '\n'
    · rw [if_pos hc, List.flatten_cons, hc]
      rw [ih]
      rfl
    · rw [if_neg hc]
      cases hR : py_readlines cs with
      | nil =>
        have : cs = [] := by
          have := ih
          rw [hR] at this
          exact this.symm
        rw [this]
        rfl
      | cons t ts =>
        rw [hR] at ih
        rw [List.flatten_cons]
        rw [List.flatten_cons] at ih
        simp only [List.cons_append]
        rw [ih]

theorem py_readlines_ne_nil (c : Char) (cs : List Char) :
    py_readlines (c :: cs) ≠ [] := by
  unfold py_readlines
  by_cases hc : c = '\n'
  · rw [if_pos hc]
    exact List.cons_ne_nil _ _
  · rw [if_neg hc]
    cases py_readlines cs with
    | nil => exact List.cons_ne_nil _ _
    | cons t ts => exact List.cons_ne_nil _ _

theorem py_readlines_line_shape (l : List Char) :
    ∀ t ∈ py_readlines l, t ≠ [] ∧ ∀ c ∈ t.dropLast, c ≠ '\n' := by
  induction l with
  | nil => intro t ht; exact absurd ht (by simp [py_readlines])
  | cons c cs ih =>
    intro t ht
    unfold py_readlines at ht
    by_cases hc : c = '\n'
    · rw [if_pos hc] at ht
      rcases List.mem_cons.mp ht with h | h
      · subst h
        exact ⟨List.cons_ne_nil _ _, by simp⟩
      · exact ih t h
    · rw [if_neg hc] at ht
      cases hR : py_readlines cs with
      | nil =>
        rw [hR] at ht
        rcases List.mem_cons.mp ht with h | h
        · subst h
          exact ⟨List.cons_ne_nil _ _, by simp⟩
        · exact absurd h (by simp)
      | cons t0 ts0 =>
        rw [hR] at ht
        rcases List.mem_cons.mp ht with h | h
        · subst h
          refine ⟨List.cons_ne_nil _ _, ?_⟩
          have ht0 := ih t0 (by rw [hR]; exact List.mem_cons_self _ _)
          cases hbody : t0 with
          | nil => simp
          | cons d ds =>
            rw [← hbody]
            rw [List.dropLast_cons_of_ne_nil (by rw [hbody]; exact List.cons_ne_nil _ _)]
            intro x hx
            rcases List.mem_cons.mp hx with h1 | h1
            · subst h1; exact hc
            · exact ht0.2 x h1
        · exact ih t (by rw [hR]; exact List.mem_cons_of_mem _ h)

theorem py_readlines_dropLast_nl (l : List Char) :
    ∀ t ∈ (py_readlines l).dropLast, t.getLast? = some '\n' := by
  induction l with
  | nil => intro t ht; exact absurd ht (by simp [py_readlines])
  | cons c cs ih =>
    intro t ht
    unfold py_readlines at ht
    by_cases hc : c = '\n'
    · rw [if_pos hc] at ht
      cases hR : py_readlines cs with
      | nil =>
        rw [hR] at ht
        exact absurd ht (by simp)
      | cons u us =>
        rw [hR] at ht
        rw [List.dropLast_cons_of_ne_nil (List.cons_ne_nil u us)] at ht
        rcases List.mem_cons.mp ht with h | h
        · subst h
          rfl
        · exact ih t (by rw [hR]; exact h)
    · rw [if_neg hc] at ht
      cases hR : py_readlines cs with
      | nil =>
        rw [hR] at ht
        exact absurd ht (by simp)
      | cons t0 ts0 =>
        rw [hR] at ht
        cases hts : ts0 with
        | nil =>
          rw [hts] at ht
          exact absurd ht (by simp)
        | cons v vs =>
          rw [hts] at ht
          rw [List.dropLast_cons_of_ne_nil (List.cons_ne_nil v vs)] at ht
          rcases List.mem_cons.mp ht with h | h
          · subst h
            have ht0 : t0.getLast? = some '\n' := by
              apply ih t0
              rw [hR, hts]
              rw [List.dropLast_cons_of_ne_nil (List.cons_ne_nil v vs)]
              exact List.mem_cons_self _ _
            cases hbody : t0 with
            | nil =>
              rw [hbody] at ht0
              exact absurd ht0 (by simp)
            | cons d ds =>
              rw [hbody] at ht0
              rw [List.getLast?_cons_cons, ht0]
          · apply ih t
            rw [hR, hts]
            rw [List.dropLast_cons_of_ne_nil (List.cons_ne_nil v vs)]
            exact List.mem_cons_of_mem _ h

/-- C10: for every instance whose per-instance output file exists, `tail`
never raises: it prints the last `readlines` entry of the file's content —
a suffix preceded by nothing or by a newline, itself newline-free except
possibly as its final character — and prints the empty string (instead of
failing on `lines[-1]`) when the file is empty. -/
theorem tail_last_line (fs : String → Option (List Char)) (polybar_pid : Nat)
    (cache_path : String) (content : List Char)
    (h : fs (cache_path ++ "." ++ toString polybar_pid) = some content) :
    ∃ out, tail fs polybar_pid cache_path = Except.ok out ∧
      (content = [] → out = []) ∧
      (content ≠ [] → out ≠ []) ∧
      (∃ pre, content = pre ++ out ∧ (pre = [] ∨ pre.getLast? = some '\n')) ∧
      (∀ c ∈ out.dropLast, c ≠ '\n') := by
  refine ⟨(py_readlines content).getLast?.getD [], ?_, ?_⟩
  · show (match fs (cache_path ++ "." ++ toString polybar_pid) with
      | none => Except.error PyError.fileNotFound
      | some content => Except.ok ((py_readlines content).getLast?.getD [])) = _
    rw [h]
  · rcases List.eq_nil_or_concat (py_readlines content) with hnil | ⟨L, a, hconcat⟩
    · have hcontent : content = [] := by
        have := py_readlines_flatten content
        rw [hnil] at this
        exact this.symm
      rw [hnil]
      exact ⟨fun _ => rfl, fun hc => absurd hcontent hc, ⟨[], by rw [hcontent]; rfl, Or.inl rfl⟩,
        by simp⟩
    · rw [List.concat_eq_append] at hconcat
      have hout : ((py_readlines content).getLast?.getD []) = a := by
        rw [hconcat, List.getLast?_concat]
        rfl
      have hamem : a ∈ py_readlines content := by
        rw [hconcat]
        exact List.mem_append_right L (List.mem_singleton_self a)
      have hshape := py_readlines_line_shape content a hamem
      have hcontent : content = L.flatten ++ a := by
        have := py_readlines_flatten content
        rw [hconcat] at this
        rw [← this, List.flatten_append]
        simp
      rw [hout]
      refine ⟨?_, fun _ => hshape.1, ⟨L.flatten, hcontent, ?_⟩, hshape.2⟩
      · intro hc
        rw [hcontent] at hc
        exact absurd (List.append_eq_nil.mp hc).2 hshape.1
      · rcases List.eq_nil_or_concat L with hLnil | ⟨M, m, hL⟩
        · left
          rw [hLnil]
          rfl
        · right
          rw [List.concat_eq_append] at hL
          have hmmem : m ∈ (py_readlines content).dropLast := by
            rw [hconcat, List.dropLast_concat, hL]
            exact List.mem_append_right M (List.mem_singleton_self m)
          have hmnl := py_readlines_dropLast_nl content m hmmem
          rw [hL, List.flatten_append]
          have hmflat : List.flatten [m] = m := by simp
          rw [hmflat, List.getLast?_append, hmnl]
          rfl

theorem tail_last_line_witness :
    ∃ out, tail tailFs 7 "window-list" = Except.ok out ∧
      (("a\nbc".data : List Char) = [] → out = []) ∧
      (("a\nbc".data : List Char) ≠ [] → out ≠ []) ∧
      (∃ pre, "a\nbc".data = pre ++ out ∧ (pre = [] ∨ pre.getLast? = some '\n')) ∧
      (∀ c ∈ out.dropLast, c ≠ '\n') :=
  tail_last_line tailFs 7 "window-list" "a\nbc".data (by rfl)

/-- C9: for every input label containing the focused delimiter, `style_focused`
returns without raising; and whenever clamping to the 27-cell focused width has
removed the delimiter from the label, the rendered label uses the literal class
`UNKNOWN`, the delimiter, and a blank 17-space title instead of propagating the
`ValueError` from the second split. -/
theorem style_focused_fallback (title : List Char)
    (h : (split_once DELIM_FOCUSED title).isSome = true) :
    (∃ out, style_focused title = Except.ok out) ∧
    (∀ label0, _strip_focused_delim title = some label0 →
      split_once DELIM_FOCUSED (_clamp_title label0 LABEL_SIZE_FOCUSED) = none →
      style_focused title = Except.ok (_set_bg_color
        (_set_padding
          (_set_fg_color ("UNKNOWN".data ++ DELIM_FOCUSED) FG_FOCUSED_CLS
            ++ _set_fg_color (_set_surround (List.replicate 17 ' ')) FG_FOCUSED))
        BG_FOCUSED)) := by
  obtain ⟨p, hp⟩ := Option.isSome_iff_exists.mp h
  have hs : _strip_focused_delim title
      = some (p.1 ++ DELIM_FOCUSED ++ re_sub_strip p.2) := by
    unfold _strip_focused_delim
    rw [hp]
    rfl
  have hlj : ljust [] (LABEL_SIZE_FOCUSED - DELIM_FOCUSED.length
      - "UNKNOWN".data.length) ' ' = List.replicate 17 ' ' := by decide
  constructor
  · simp only [style_focused, hs]
    cases hsp : split_once DELIM_FOCUSED
        (_clamp_title (p.1 ++ DELIM_FOCUSED ++ re_sub_strip p.2) LABEL_SIZE_FOCUSED) with
    | some cn => exact ⟨_, rfl⟩
    | none => exact ⟨_, rfl⟩
  · intro label0 h0 hnone
    simp only [style_focused, h0, hnone, hlj]

theorem style_focused_fallback_witness :
    style_focused "aaaaaaaaaaaaaaaaaaaaaaaaaaaaaa - x".data
      = Except.ok (_set_bg_color
        (_set_padding
          (_set_fg_color ("UNKNOWN".data ++ DELIM_FOCUSED) FG_FOCUSED_CLS
            ++ _set_fg_color (_set_surround (List.replicate 17 ' ')) FG_FOCUSED))
        BG_FOCUSED) :=
  (style_focused_fallback "aaaaaaaaaaaaaaaaaaaaaaaaaaaaaa - x".data (by decide)).2
    "aaaaaaaaaaaaaaaaaaaaaaaaaaaaaa - x".data (by decide) (by decide)

theorem lexLe_refl (l : List Char) : lexLe l l = true := by
  induction l with
  | nil => rfl
  | cons c cs ih =>
    unfold lexLe
    rw [if_neg (Nat.lt_irrefl c.toNat), if_neg (Nat.lt_irrefl c.toNat)]
    exact ih

theorem lexLe_total (a b : List Char) : (lexLe a b || lexLe b a) = true := by
  induction a generalizing b with
  | nil => simp [lexLe]
  | cons c cs ih =>
    cases b with
    | nil => simp [lexLe]
    | cons d ds =>
      unfold lexLe
      rcases Nat.lt_trichotomy c.toNat d.toNat with hlt | heq | hgt
      · simp [hlt]
      · rw [heq]
        simp only [lt_self_iff_false, if_false]
        exact ih ds
      · rw [if_neg (Nat.lt_asymm hgt), if_pos hgt, if_pos hgt]
        simp

theorem lexLe_trans (a b c : List Char) (h1 : lexLe a b = true)
    (h2 : lexLe b c = true) : lexLe a c = true := by
  induction a generalizing b c with
  | nil => simp [lexLe]
  | cons x xs ih =>
    cases b with
    | nil => simp [lexLe] at h1
    | cons y ys =>
      cases c with
      | nil => simp [lexLe] at h2
      | cons z zs =>
        unfold lexLe at h1 h2 ⊢
        by_cases hzy : z.toNat < y.toNat
        · rw [if_neg (Nat.lt_asymm hzy), if_pos hzy] at h2
          exact absurd h2 (by simp)
        · by_cases hyx : y.toNat < x.toNat
          · rw [if_neg (Nat.lt_asymm hyx), if_pos hyx] at h1
            exact absurd h1 (by simp)
          · by_cases hxy : x.toNat < y.toNat
            · by_cases hyz : y.toNat < z.toNat
              · rw [if_pos (Nat.lt_trans hxy hyz)]
              · have hyz' : y.toNat = z.toNat := by omega
                rw [if_pos (by omega : x.toNat < z.toNat)]
            · have hxy' : x.toNat = y.toNat := by omega
              rw [if_neg hxy, if_neg hyx] at h1
              by_cases hyz : y.toNat < z.toNat
              · rw [if_pos (by omega : x.toNat < z.toNat)]
              · have hyz' : y.toNat = z.toNat := by omega
                rw [if_neg hyz, if_neg hzy] at h2
                rw [if_neg (by omega : ¬ x.toNat < z.toNat),
                  if_neg (by omega : ¬ z.toNat < x.toNat)]
                exact ih ys zs h1 h2

theorem clsLe_trans (a b c : WRec) (h1 : clsLe a b = true) (h2 : clsLe b c = true) :
    clsLe a c = true :=
  lexLe_trans a.props.cls b.props.cls c.props.cls h1 h2

theorem clsLe_total (a b : WRec) : (clsLe a b || clsLe b a) = true :=
  lexLe_total a.props.cls b.props.cls

theorem pairwise_clsLe_of_const (c : List Char) :
    ∀ (l : List WRec), (∀ r ∈ l, r.props.cls = c) →
      l.Pairwise (fun a b => clsLe a b = true) := by
  intro l
  induction l with
  | nil => intro _; exact List.Pairwise.nil
  | cons hd tl ih =>
    intro hall
    refine List.Pairwise.cons ?_ (ih (fun r hr => hall r (List.mem_cons_of_mem hd hr)))
    intro b hb
    have h1 : hd.props.cls = c := hall hd (List.mem_cons_self hd tl)
    have h2 : b.props.cls = c := hall b (List.mem_cons_of_mem hd hb)
    unfold clsLe
    rw [h1, h2]
    exact lexLe_refl c

/-- C8: `get_window_list` returns its records sorted by class name, and within
each class the records keep the relative order of their ids in the original
query output: filtering the sorted result by any class value gives exactly the
corresponding filtering of the unsorted, query-ordered record list. -/
theorem window_list_sorted_stable (node_win_id fltr : List Int)
    (meta : Int → Option WProps) :
    (get_window_list node_win_id meta fltr).Pairwise
      (fun a b => clsLe a b = true) ∧
    ∀ c : List Char,
      (get_window_list node_win_id meta fltr).filter
          (fun r => decide (r.props.cls = c))
        = (_map_to_domain node_win_id (metaMinus meta fltr)).filter
            (fun r => decide (r.props.cls = c)) := by
  constructor
  · show (List.mergeSort (_map_to_domain node_win_id (metaMinus meta fltr))
        clsLe).Pairwise (fun a b => clsLe a b = true)
    exact List.sorted_mergeSort clsLe_trans clsLe_total _
  · intro c
    show (List.mergeSort (_map_to_domain node_win_id (metaMinus meta fltr))
        clsLe).filter (fun r => decide (r.props.cls = c)) = _
    have hpair : ((_map_to_domain node_win_id (metaMinus meta fltr)).filter
        (fun r => decide (r.props.cls = c))).Pairwise
          (fun a b => clsLe a b = true) := by
      apply pairwise_clsLe_of_const c
      intro r hr
      exact of_decide_eq_true (List.mem_filter.mp hr).2
    have hsub : List.Sublist
        ((_map_to_domain node_win_id (metaMinus meta fltr)).filter
          (fun r => decide (r.props.cls = c)))
        (List.mergeSort (_map_to_domain node_win_id (metaMinus meta fltr)) clsLe) :=
      List.sublist_mergeSort clsLe_trans clsLe_total hpair (List.filter_sublist _)
    have hsub2 := hsub.filter (fun r => decide (r.props.cls = c))
    rw [List.filter_filter] at hsub2
    have hidem : (fun a : WRec => decide (a.props.cls = c)
        && decide (a.props.cls = c)) = (fun a : WRec => decide (a.props.cls = c)) := by
      funext a
      exact Bool.and_self _
    rw [hidem] at hsub2
    have hperm : List.Perm
        ((List.mergeSort (_map_to_domain node_win_id (metaMinus meta fltr))
          clsLe).filter (fun r => decide (r.props.cls = c)))
        ((_map_to_domain node_win_id (metaMinus meta fltr)).filter
          (fun r => decide (r.props.cls = c))) :=
      (List.mergeSort_perm _ clsLe).filter _
    exact (hsub2.eq_of_length hperm.length_eq.symm).symm

theorem mem_map_to_domain (node_id : List Int) (m : Int → Option WProps)
    (r : WRec) :
    r ∈ _map_to_domain node_id m ↔ r.id ∈ node_id ∧ m r.id = some r.props := by
  unfold _map_to_domain
  rw [List.mem_filterMap]
  constructor
  · rintro ⟨a, ha, hfa⟩
    cases hm : m a with
    | none =>
      rw [hm] at hfa
      exact absurd hfa (by simp)
    | some p =>
      rw [hm] at hfa
      have hr : (⟨a, p⟩ : WRec) = r := by
        simpa using hfa
      rw [← hr]
      exact ⟨ha, hm⟩
  · rintro ⟨h1, h2⟩
    refine ⟨r.id, h1, ?_⟩
    rw [h2]
    rfl

theorem metaMinus_eq_some (m : Int → Option WProps) (fltr : List Int)
    (id : Int) (p : WProps) :
    metaMinus m fltr id = some p ↔ id ∉ fltr ∧ m id = some p := by
  unfold metaMinus
  by_cases h : id ∈ fltr
  · rw [if_pos h]
    simp [h]
  · rw [if_neg h]
    simp [h]

theorem mem_tierIds (l : List WRec) (x : Int) :
    x ∈ tierIds l ↔ ∃ r, r ∈ l ∧ r.id = x := by
  unfold tierIds
  exact List.mem_map

theorem mem_get_window_list (node_win_id fltr : List Int)
    (m : Int → Option WProps) (w : WRec) :
    w ∈ get_window_list node_win_id m fltr
      ↔ w.id ∈ node_win_id ∧ metaMinus m fltr w.id = some w.props := by
  unfold get_window_list _group
  rw [List.mem_mergeSort]
  exact mem_map_to_domain node_win_id (metaMinus m fltr) w

/-- C2 (counterexample): with no focused record (empty focused query), a
same-class query result of `[5]` and a visible query result of `[5]`, where id
`5` has metadata, the same-class tier and the rest tier both contain id `5` —
the tiers are not pairwise disjoint, because `get_output` only appends the
same-class ids to the filter when a focused id is present. -/
theorem tiers_disjoint_union_counterexample :
    ¬ tiersDisjointUnion [] [5] [5] metaABC := by
  intro h
  unfold tiersDisjointUnion at h
  obtain ⟨-, -, h3, -⟩ := h
  have he : get_output_tiers [] [5] [5] metaABC
      = ⟨[], get_same_class_windows [5] metaABC [],
          get_window_list [5] metaABC []⟩ := rfl
  have hsame5 : (5 : Int) ∈ tierIds (get_output_tiers [] [5] [5] metaABC).sameTier := by
    rw [he]
    decide
  have hrest5 : (5 : Int) ∈ tierIds (get_output_tiers [] [5] [5] metaABC).restTier := by
    rw [he]
    apply (mem_tierIds _ _).mpr
    refine ⟨⟨5, ⟨0, 0, (0, 0, 0, 0), "c".data, "five".data⟩⟩, ?_, rfl⟩
    apply (mem_get_window_list [5] [] metaABC _).mpr
    exact ⟨by decide, by decide⟩
  exact h3 5 hsame5 hrest5

/-- C2 (amended): whenever the focused query yields a record (an id with
metadata, nonzero as all query ids are) and the focused-query and
same-class-query ids all appear in the visible-query result — as the window
manager guarantees — the three tiers of one rendering cycle are pairwise
disjoint in id and their ids together are exactly the visible ids that have
metadata. -/
theorem tiers_disjoint_union_amended (focusedIds sameClassIds visibleIds : List Int)
    (meta : Int → Option WProps)
    (hfoc : ∀ x ∈ focusedIds, x ∈ visibleIds)
    (hsame : ∀ x ∈ sameClassIds, x ∈ visibleIds)
    (r : WRec) (hr : get_focused_window focusedIds meta = some r)
    (hr0 : r.id ≠ 0) :
    tiersDisjointUnion focusedIds sameClassIds visibleIds meta := by
  have hrfoc : r.id ∈ focusedIds ∧ meta r.id = some r.props := by
    have hmem : r ∈ _map_to_domain focusedIds meta :=
      List.mem_of_getLast?_eq_some hr
    exact (mem_map_to_domain _ _ _).mp hmem
  have he : get_output_tiers focusedIds sameClassIds visibleIds meta
      = ⟨[r], get_same_class_windows sameClassIds meta [r.id],
          get_window_list visibleIds meta
            (r.id :: (get_same_class_windows sameClassIds meta [r.id]).map
              (fun n => n.id))⟩ := by
    simp only [get_output_tiers, hr]
    rw [if_neg hr0]
  have hmemC : ∀ w, w ∈ get_same_class_windows sameClassIds meta [r.id]
      → w.id ∈ sameClassIds ∧ w.id ≠ r.id ∧ meta w.id = some w.props := by
    intro w hw
    have h1 := (mem_map_to_domain sameClassIds (metaMinus meta [r.id]) w).mp hw
    have h2 := (metaMinus_eq_some meta [r.id] w.id w.props).mp h1.2
    exact ⟨h1.1, fun hx => h2.1 (by rw [hx]; exact List.mem_singleton_self _), h2.2⟩
  have hCids : tierIds (get_same_class_windows sameClassIds meta [r.id])
      = (get_same_class_windows sameClassIds meta [r.id]).map (fun n => n.id) := rfl
  unfold tiersDisjointUnion
  rw [he]
  refine ⟨?_, ?_, ?_, ?_⟩
  · intro x hx hxc
    have hxr : x = r.id := by
      simpa [tierIds] using hx
    obtain ⟨w, hw, hwid⟩ := (mem_tierIds _ _).mp hxc
    exact (hmemC w hw).2.1 (by rw [hwid, hxr])
  · intro x hx hxrest
    have hxr : x = r.id := by
      simpa [tierIds] using hx
    obtain ⟨w, hw, hwid⟩ := (mem_tierIds _ _).mp hxrest
    have h1 := (mem_get_window_list _ _ _ _).mp hw
    have h2 := (metaMinus_eq_some _ _ _ _).mp h1.2
    apply h2.1
    rw [hwid, hxr]
    exact List.mem_cons_self _ _
  · intro x hx hxrest
    obtain ⟨w, hw, hwid⟩ := (mem_tierIds _ _).mp hxrest
    have h1 := (mem_get_window_list _ _ _ _).mp hw
    have h2 := (metaMinus_eq_some _ _ _ _).mp h1.2
    apply h2.1
    apply List.mem_cons_of_mem
    rw [← hCids] at hx
    rw [hwid]
    exact hx
  · intro x
    constructor
    · rintro (hx | hx | hx)
      · have hxr : x = r.id := by
          simpa [tierIds] using hx
        subst hxr
        exact ⟨hfoc r.id hrfoc.1, by rw [hrfoc.2]; rfl⟩
      · obtain ⟨w, hw, hwid⟩ := (mem_tierIds _ _).mp hx
        have h1 := hmemC w hw
        subst hwid
        exact ⟨hsame w.id h1.1, by rw [h1.2.2]; rfl⟩
      · obtain ⟨w, hw, hwid⟩ := (mem_tierIds _ _).mp hx
        have h1 := (mem_get_window_list _ _ _ _).mp hw
        have h2 := (metaMinus_eq_some _ _ _ _).mp h1.2
        subst hwid
        exact ⟨h1.1, by rw [h2.2]; rfl⟩
    · rintro ⟨hxv, hxm⟩
      obtain ⟨p, hp⟩ := Option.isSome_iff_exists.mp hxm
      by_cases h1 : x = r.id
      · left
        subst h1
        simp [tierIds]
      · by_cases h2 : x ∈ tierIds (get_same_class_windows sameClassIds meta [r.id])
        · right
          left
          exact h2
        · right
          right
          apply (mem_tierIds _ _).mpr
          refine ⟨⟨x, p⟩, ?_, rfl⟩
          apply (mem_get_window_list _ _ _ _).mpr
          refine ⟨hxv, ?_⟩
          apply (metaMinus_eq_some _ _ _ _).mpr
          refine ⟨?_, hp⟩
          intro hxf
          rcases List.mem_cons.mp hxf with hh | hh
          · exact h1 hh
          · exact h2 hh

theorem tiers_disjoint_union_amended_witness :
    tiersDisjointUnion [2] [3] [2, 3, 4] metaABC :=
  tiers_disjoint_union_amended [2] [3] [2, 3, 4] metaABC (by decide) (by decide)
    ⟨2, ⟨0, 0, (0, 0, 0, 0), "b".data, "two".data⟩⟩ (by decide) (by decide)
